import Mathlib

/-!
Verification of the HeterogeneousContainer repository (src/Storage.hpp and
src/TypeMapping.hpp) through a shallow embedding in Lean 4.

Modelling conventions, justified from the source:

* `Storage<T>` is a `std::pmr::list<T>` backed by a `monotonic_buffer_resource`.
  A monotonic buffer never reuses deallocated node storage, so every node ever
  created has a distinct address.  We model node addresses as natural-number
  ids handed out by a counter `nextId`, and the list of live nodes as a list of
  `(id, value)` pairs in list (= insertion) order.

* A `std::list` iterator is either a pointer to a node or the `end()` sentinel
  of a particular container.  We model it as `Iter`: `node id` or
  `endOf sid` where `sid` is the identity (address) of the container.

* `Storage::ObjectPointer` stores such an iterator `it` and a pointer `cont`
  to the owning container (`nullptr` when default-constructed), modelled as
  `Option Nat`.

* `HeterogeneousStorage<Ts...>::GenericObjectPointer` holds
  `std::variant<ObjPtr<Ts>...>`.  Our `ObjectPointer` model is type-agnostic
  (a C++ `ObjectPointer<T>` carries `T` only statically), so a variant value
  is modelled as the active alternative index `tag` together with the
  contained pointer, plus the `valueless_by_exception` flag of
  `std::variant`, which is `false` for every normally constructed variant.
-/

namespace Core

/-- Model of a `std::pmr::list` iterator: a pointer to a list node
(identified by its never-reused address `id`), or the `end()` sentinel of the
container whose identity (address) is `sid`. -/
inductive Iter : Type where
  | node (id : Nat) : Iter
  | endOf (sid : Nat) : Iter
deriving DecidableEq, Repr

/-- Model of `Storage<T>::ObjectPointer` (src/Storage.hpp lines 84-103):
a `std::list` iterator `it` together with a pointer `cont` to the owning
storage (`nullptr`, i.e. `none`, when default-constructed). -/
structure ObjectPointer : Type where
  it : Iter
  cont : Option Nat
deriving DecidableEq, Repr

namespace ObjectPointer

/-- Model of `ObjectPointer::operator==` (src/Storage.hpp line 96):
`return it == other.it;` — only the iterators are compared, the owning
storage field `cont` is not consulted. -/
def eqOp (p other : ObjectPointer) : Bool :=
  decide (p.it = other.it)

/-- Model of `ObjectPointer::operator bool` (src/Storage.hpp line 97):
`return cont && it != cont->end();`. -/
def toBool (p : ObjectPointer) : Bool :=
  match p.cont with
  | none => false
  | some sid => decide (p.it ≠ Iter.endOf sid)

end ObjectPointer

/-- Model of `Storage<T>` (src/Storage.hpp lines 19-75): a `std::pmr::list`
of live objects in insertion order.  Each node carries the id (address) it
was given at `emplace` time; `nextId` is the next fresh id (the monotonic
buffer resource never reuses addresses). -/
structure Storage (T : Type) : Type where
  nextId : Nat
  objects : List (Nat × T)
deriving DecidableEq, Repr

namespace Storage

/-- Model of `Storage::size()` (inherited from `std::pmr::list::size`). -/
def size {T : Type} (s : Storage T) : Nat :=
  s.objects.length

/-- Model of `Storage::emplace` (src/Storage.hpp lines 53-58): constructs the
value, inserts it before `end()` (i.e. appends it), and returns an
`ObjectPointer(this, inserted iterator)`.  `sid` is the identity of this
storage instance. -/
def emplace {T : Type} (sid : Nat) (s : Storage T) (v : T) :
    Storage T × ObjectPointer :=
  (⟨s.nextId + 1, s.objects ++ [(s.nextId, v)]⟩,
   ⟨Iter.node s.nextId, some sid⟩)

/-- Model of `Storage::erase` (src/Storage.hpp lines 61-65):
`container::erase(ptr.it)` removes the node the iterator points to (the
first — and, for ids handed out by `emplace`, only — node with that
address); then `ptr = ObjectPointer(this, end())` overwrites the consumed
handle with an end-pointing one. -/
def erase {T : Type} (sid : Nat) (s : Storage T) (p : ObjectPointer) :
    Storage T × ObjectPointer :=
  (⟨s.nextId, s.objects.eraseP (fun q => decide (Iter.node q.1 = p.it))⟩,
   ⟨Iter.endOf sid, some sid⟩)

end Storage

/-- Model of `HeterogeneousStorage<Ts...>::GenericObjectPointer`
(src/Storage.hpp lines 251-287): a `std::variant` over the typed object
pointers.  `tag` is the index of the active alternative (the index of the
wrapped handle's object type in the registered type list `Ts...`); `p` is
the contained pointer; `valueless` models
`std::variant::valueless_by_exception`, which is `false` for every variant
constructed normally. -/
structure GenericObjectPointer : Type where
  valueless : Bool
  tag : Nat
  p : ObjectPointer
deriving DecidableEq, Repr

/-- The error thrown by the checked cast: the source catches
`std::bad_variant_access` and rethrows
`std::runtime_error` (src/Storage.hpp lines 266-269); the spec calls this
error kind TypeMismatch. -/
inductive CastError : Type where
  | typeMismatch : CastError
deriving DecidableEq, Repr

namespace GenericObjectPointer

/-- Model of the converting constructor
`GenericObjectPointer(ObjPtrT ptr) : ptr(ptr)` (src/Storage.hpp line 257):
stores the typed pointer as the variant alternative for its type, so the
variant is not valueless and its active tag is the type's index. -/
def construct (tag : Nat) (p : ObjectPointer) : GenericObjectPointer :=
  ⟨false, tag, p⟩

/-- Model of `GenericObjectPointer::operator ObjPtrT` (src/Storage.hpp lines
260-270): `std::get<ObjPtrT>(ptr)` returns the contained pointer when the
requested alternative `tag` is active (and the variant is not valueless);
otherwise `std::get` throws `std::bad_variant_access`, which the source
converts into a thrown `std::runtime_error`, modelled as
`Except.error CastError.typeMismatch`. -/
def cast (g : GenericObjectPointer) (tag : Nat) :
    Except CastError ObjectPointer :=
  if g.valueless = false ∧ g.tag = tag then Except.ok g.p
  else Except.error CastError.typeMismatch

/-- The cast operator is declared `const` (src/Storage.hpp line 261): it
reads the variant and mutates nothing.  This state-passing wrapper makes the
post-state explicit: it returns the cast result together with the generic
pointer as it is after the call, which is the unchanged receiver. -/
def castStateful (g : GenericObjectPointer) (tag : Nat) :
    Except CastError ObjectPointer × GenericObjectPointer :=
  (g.cast tag, g)

/-- Model of `GenericObjectPointer::operator bool` (src/Storage.hpp lines
279-283) as written in the source:
`return ptr.valueless_by_exception && std::visit(...)` — the test is the
variant's valueless flag AND the contained pointer's own validity.  (As C++
the expression is additionally ill-formed: the member function is not
called and the `std::visit` arguments are swapped; this model is the most
charitable compiling reading of the same conjunction.) -/
def toBoolCode (g : GenericObjectPointer) : Bool :=
  g.valueless && g.p.toBool

/-- What the documentation comment of the source
(`check if pointer if valid (points on storage-places object)`) and the spec
say the validity check should compute: the contained pointer's validity for
a populated (non-valueless) variant. -/
def toBoolSpec (g : GenericObjectPointer) : Bool :=
  !g.valueless && g.p.toBool

end GenericObjectPointer

namespace metaprogramming

/-- Model of `type_table_row::index_of` (src/TypeMapping.hpp lines 43-72).
The table is a compile-time linked list of rows; row `k` holds the `k`-th
registered type.  `index_of<U>` on a row compares `U` with the row's type:
on a match it returns the row's index, otherwise it recurses into the next
row, and the last row throws (`throw "No type in table"`) when `U` is not
its type — modelled by `none`.  Types are modelled as elements of an
arbitrary type `α` with decidable equality (`std::is_same_v`); the row
index parameter `b` starts at 0 for the first row. -/
def index_of {α : Type} [DecidableEq α] (b : Nat) (ts : List α) (u : α) :
    Option Nat :=
  match ts with
  | [] => none
  | t :: rest => if u = t then some b else index_of (b + 1) rest u

/-- Model of `row_indexer` / `type_table::type_of` (src/TypeMapping.hpp
lines 74-88): walking `idx` rows down the linked list and returning that
row's type; no row at that depth is modelled by `none` (in C++ this is a
compile-time error). -/
def type_of {α : Type} (ts : List α) (idx : Nat) : Option α :=
  match ts, idx with
  | [], _ => none
  | t :: _, 0 => some t
  | _ :: rest, i + 1 => type_of rest i

end metaprogramming

/-- Model of `HeterogeneousStorage<Ts...>` (src/Storage.hpp lines 111-226):
an array `containers` of per-type sub-storages, one per registered type,
indexed by the type table (`Get<ObjT>` reads `containers[index_of<ObjT>]`).
The index-to-element-type assignment is the family `τ`. -/
structure HeterogeneousStorage (τ : Nat → Type) : Type where
  containers : ∀ i : Nat, Storage (τ i)

namespace HeterogeneousStorage

/-- Model of `HeterogeneousStorage::emplace<ObjT>` (src/Storage.hpp lines
145-149): `Get<ObjT>().emplace(args...)` — the sub-storage at
`i = TypeIndexer::index_of<ObjT>` is updated by a `Storage::emplace` and
every other sub-storage is left as it was.  `sid` is the identity of that
sub-storage instance. -/
def emplace {τ : Nat → Type} (s : HeterogeneousStorage τ) (i : Nat)
    (v : τ i) (sid : Nat) : HeterogeneousStorage τ × ObjectPointer :=
  let r := Storage.emplace sid (s.containers i) v
  (⟨Function.update s.containers i r.1⟩, r.2)

/-- Model of `HeterogeneousStorage::erase<ObjT>` (src/Storage.hpp lines
152-156): `Get<ObjT>().erase(ptr)` on the sub-storage at
`i = TypeIndexer::index_of<ObjT>`. -/
def erase {τ : Nat → Type} (s : HeterogeneousStorage τ) (i : Nat)
    (p : ObjectPointer) (sid : Nat) :
    HeterogeneousStorage τ × ObjectPointer :=
  let r := Storage.erase sid (s.containers i) p
  (⟨Function.update s.containers i r.1⟩, r.2)

/-- Model of `HeterogeneousStorage::erase(GenericObjectPointer&&)`
(src/Storage.hpp line 159).  Its entire body is `erase(ptr);`, where `ptr`
is the (lvalue) parameter itself: the typed overload `erase<ObjT>` can
never be selected for it (`ObjT` sits in a non-deduced context), so the
only candidate the call could ever resolve to is this same overload again.
The self-call is modelled with explicit fuel; no execution path ever
reaches a typed `Storage::erase`, so no final state is ever produced. -/
def eraseGenericCode {τ : Nat → Type} (fuel : Nat)
    (s : HeterogeneousStorage τ) (g : GenericObjectPointer) :
    Option (HeterogeneousStorage τ) :=
  match fuel with
  | 0 => none
  | f + 1 => eraseGenericCode f s g

/-- Modelled from the spec (the code's own comment `remove object from
container` and the spec sentence `erase(GenericHandle) — resolves the
active tag and delegates`): what the generic-erase overload is supposed to
do — erase through the typed overload of the sub-pool selected by the
active tag. -/
def eraseGenericSpec {τ : Nat → Type} (s : HeterogeneousStorage τ)
    (g : GenericObjectPointer) (sid : Nat) :
    Option (HeterogeneousStorage τ) :=
  some (HeterogeneousStorage.erase s g.tag g.p sid).1

end HeterogeneousStorage

/-- The static C++ type of an iterator returned by the begin/end family of
`std::pmr::list` (and hence of `Storage`, which re-exports them): the four
distinct iterator types. -/
inductive CxxIterType : Type where
  | mutIter : CxxIterType
  | constIter : CxxIterType
  | mutRevIter : CxxIterType
  | constRevIter : CxxIterType
deriving DecidableEq, Repr

/-- An iterator value as observed by a caller: its static C++ type together
with the sequence of elements a traversal starting at it visits (empty for
the one-past-the-end iterators). -/
structure IterVal (T : Type) : Type where
  ty : CxxIterType
  elems : List T
deriving DecidableEq, Repr

namespace Storage

/-- The list of stored values in list (insertion) order. -/
def values {T : Type} (s : Storage T) : List T :=
  s.objects.map Prod.snd

/-- Model of `Storage::begin` (re-exported `std::pmr::list::begin`, non
const overload): a mutable iterator traversing the live objects in
insertion order. -/
def beginIt {T : Type} (s : Storage T) : IterVal T :=
  ⟨CxxIterType.mutIter, s.values⟩

/-- Model of `Storage::end` (non const overload). -/
def endIt {T : Type} (_ : Storage T) : IterVal T :=
  ⟨CxxIterType.mutIter, []⟩

/-- Model of `Storage::cbegin`. -/
def cbeginIt {T : Type} (s : Storage T) : IterVal T :=
  ⟨CxxIterType.constIter, s.values⟩

/-- Model of `Storage::cend`. -/
def cendIt {T : Type} (_ : Storage T) : IterVal T :=
  ⟨CxxIterType.constIter, []⟩

/-- Model of `Storage::rbegin` (non const overload): a mutable reverse
iterator traversing the live objects in reverse insertion order. -/
def rbeginIt {T : Type} (s : Storage T) : IterVal T :=
  ⟨CxxIterType.mutRevIter, s.values.reverse⟩

/-- Model of `Storage::rend` (non const overload). -/
def rendIt {T : Type} (_ : Storage T) : IterVal T :=
  ⟨CxxIterType.mutRevIter, []⟩

/-- Model of `Storage::crbegin`. -/
def crbeginIt {T : Type} (s : Storage T) : IterVal T :=
  ⟨CxxIterType.constRevIter, s.values.reverse⟩

/-- Model of `Storage::crend`. -/
def crendIt {T : Type} (_ : Storage T) : IterVal T :=
  ⟨CxxIterType.constRevIter, []⟩

end Storage

namespace HeterogeneousStorage

/-- Model of `HeterogeneousStorage::begin<ObjT>` (src/Storage.hpp line 173):
`Get<ObjT>().begin()` at `i = index_of<ObjT>`. -/
def beginIt {τ : Nat → Type} (s : HeterogeneousStorage τ) (i : Nat) :
    IterVal (τ i) :=
  (s.containers i).beginIt

/-- Model of `HeterogeneousStorage::end<ObjT>` (src/Storage.hpp line 176). -/
def endIt {τ : Nat → Type} (s : HeterogeneousStorage τ) (i : Nat) :
    IterVal (τ i) :=
  (s.containers i).endIt

/-- Model of `HeterogeneousStorage::cbegin<ObjT>` (line 179). -/
def cbeginIt {τ : Nat → Type} (s : HeterogeneousStorage τ) (i : Nat) :
    IterVal (τ i) :=
  (s.containers i).cbeginIt

/-- Model of `HeterogeneousStorage::cend<ObjT>` (line 182). -/
def cendIt {τ : Nat → Type} (s : HeterogeneousStorage τ) (i : Nat) :
    IterVal (τ i) :=
  (s.containers i).cendIt

/-- Model of `HeterogeneousStorage::rbegin<ObjT>` (line 185). -/
def rbeginIt {τ : Nat → Type} (s : HeterogeneousStorage τ) (i : Nat) :
    IterVal (τ i) :=
  (s.containers i).rbeginIt

/-- Model of `HeterogeneousStorage::rend<ObjT>` (line 188). -/
def rendIt {τ : Nat → Type} (s : HeterogeneousStorage τ) (i : Nat) :
    IterVal (τ i) :=
  (s.containers i).rendIt

/-- Model of `HeterogeneousStorage::crbegin<ObjT>` (line 191). -/
def crbeginIt {τ : Nat → Type} (s : HeterogeneousStorage τ) (i : Nat) :
    IterVal (τ i) :=
  (s.containers i).crbeginIt

/-- Model of `HeterogeneousStorage::crend<ObjT>` (line 194). -/
def crendIt {τ : Nat → Type} (s : HeterogeneousStorage τ) (i : Nat) :
    IterVal (τ i) :=
  (s.containers i).crendIt

end HeterogeneousStorage

namespace TypedView

/-- Model of `TypedView::begin` (src/Storage.hpp line 238):
`storage.begin<ObjT>()`.  The view is a zero-state adapter holding only the
storage reference, so each member is a function of the bound storage `s`
and the bound type's index `i`. -/
def beginIt {τ : Nat → Type} (s : HeterogeneousStorage τ) (i : Nat) :
    IterVal (τ i) :=
  s.beginIt i

/-- Model of `TypedView::end` (line 239): `storage.end<ObjT>()`. -/
def endIt {τ : Nat → Type} (s : HeterogeneousStorage τ) (i : Nat) :
    IterVal (τ i) :=
  s.endIt i

/-- Model of `TypedView::cbegin` (line 240): `storage.cbegin<ObjT>()`. -/
def cbeginIt {τ : Nat → Type} (s : HeterogeneousStorage τ) (i : Nat) :
    IterVal (τ i) :=
  s.cbeginIt i

/-- Model of `TypedView::cend` (line 241): `storage.cend<ObjT>()`. -/
def cendIt {τ : Nat → Type} (s : HeterogeneousStorage τ) (i : Nat) :
    IterVal (τ i) :=
  s.cendIt i

/-- Model of `TypedView::rbegin` (line 242): `storage.rbegin<ObjT>()`. -/
def rbeginIt {τ : Nat → Type} (s : HeterogeneousStorage τ) (i : Nat) :
    IterVal (τ i) :=
  s.rbeginIt i

/-- Model of `TypedView::rend` (line 243): `storage.rend<ObjT>()`. -/
def rendIt {τ : Nat → Type} (s : HeterogeneousStorage τ) (i : Nat) :
    IterVal (τ i) :=
  s.rendIt i

/-- Model of `TypedView::crbegin` (line 244): `storage.crbegin<ObjT>()`. -/
def crbeginIt {τ : Nat → Type} (s : HeterogeneousStorage τ) (i : Nat) :
    IterVal (τ i) :=
  s.crbeginIt i

/-- Model of `TypedView::crend` (src/Storage.hpp line 245).  The source body
is `return storage.rend<ObjT>();` — it delegates to `rend`, not to
`crend`. -/
def crendIt {τ : Nat → Type} (s : HeterogeneousStorage τ) (i : Nat) :
    IterVal (τ i) :=
  s.rendIt i

end TypedView

namespace Storage

/-- The ids (node addresses) of the live objects, in list order. -/
def liveIds {T : Type} (s : Storage T) : List Nat :=
  s.objects.map Prod.fst

end Storage

/-- One client operation on a single `Storage`: construct a value, or erase
through a previously returned handle.  An erase is identified by the node
id of the handle used (the handle an earlier `emplace` returned is exactly
`⟨Iter.node id, some sid⟩`). -/
inductive StorageOp (T : Type) : Type where
  | emplace (v : T) : StorageOp T
  | erase (id : Nat) : StorageOp T
deriving DecidableEq, Repr

/-- Run a sequence of operations against a storage with identity `sid`:
each `emplace` runs `Storage.emplace`, each `erase id` runs
`Storage.erase` with the handle `⟨Iter.node id, some sid⟩` that the
matching `emplace` produced. -/
def runOps {T : Type} (sid : Nat) :
    Storage T → List (StorageOp T) → Storage T
  | s, [] => s
  | s, StorageOp.emplace v :: ops =>
      runOps sid (Storage.emplace sid s v).1 ops
  | s, StorageOp.erase id :: ops =>
      runOps sid (Storage.erase sid s ⟨Iter.node id, some sid⟩).1 ops

/-- The operations are performed with valid handles: every erase uses a
handle to a node that is live at the moment of the call. -/
def validOps {T : Type} (sid : Nat) :
    Storage T → List (StorageOp T) → Bool
  | _, [] => true
  | s, StorageOp.emplace v :: ops =>
      validOps sid (Storage.emplace sid s v).1 ops
  | s, StorageOp.erase id :: ops =>
      s.liveIds.contains id &&
        validOps sid (Storage.erase sid s ⟨Iter.node id, some sid⟩).1 ops

/-- The number of emplace calls in a sequence of operations. -/
def countEmplaces {T : Type} : List (StorageOp T) → Nat
  | [] => 0
  | StorageOp.emplace _ :: ops => countEmplaces ops + 1
  | StorageOp.erase _ :: ops => countEmplaces ops

/-- The number of erase calls in a sequence of operations. -/
def countErases {T : Type} : List (StorageOp T) → Nat
  | [] => 0
  | StorageOp.emplace _ :: ops => countErases ops
  | StorageOp.erase _ :: ops => countErases ops + 1

/-- The full emplace log of a sequence of operations: every emplaced value
tagged with the node id it receives, in the order the emplace calls occur,
when the next fresh id is `firstId`. -/
def emplacedLog {T : Type} (firstId : Nat) :
    List (StorageOp T) → List (Nat × T)
  | [] => []
  | StorageOp.emplace v :: ops =>
      (firstId, v) :: emplacedLog (firstId + 1) ops
  | StorageOp.erase _ :: ops => emplacedLog firstId ops

/-- The node ids erased by a sequence of operations. -/
def erasedIds {T : Type} : List (StorageOp T) → List Nat
  | [] => []
  | StorageOp.emplace _ :: ops => erasedIds ops
  | StorageOp.erase id :: ops => id :: erasedIds ops

/-- The scenario of the spec: emplace 1, 2 and 3 (receiving node ids 0, 1
and 2), then erase through the handle for the value 2 (node id 1). -/
def demoOps : List (StorageOp Nat) :=
  [StorageOp.emplace 1, StorageOp.emplace 2, StorageOp.emplace 3,
   StorageOp.erase 1]

/-- A concrete valid handle: points at node 0, owned by the storage with
identity 1 (so it is not that storage's end sentinel). -/
def demoPtr : ObjectPointer :=
  ⟨Iter.node 0, some 1⟩

/-- A concrete index-to-type family: every sub-storage holds naturals. -/
abbrev demoTau : Nat → Type := fun _ => Nat

/-- A concrete heterogeneous storage whose sub-storages are all empty. -/
def demoH : HeterogeneousStorage demoTau :=
  ⟨fun _ => ⟨0, []⟩⟩

/-- A concrete generic pointer wrapping the valid handle `demoPtr` at tag 0. -/
def demoG : GenericObjectPointer :=
  GenericObjectPointer.construct 0 demoPtr

/-- Claim C1: the claim says the boolean validity check of a
`GenericObjectPointer` returns true iff the contained typed handle reports
valid.  The code is wrong: for every normally constructed (hence populated,
non-valueless) generic pointer the source expression
`valueless_by_exception && visit(valid)` evaluates to `false`, even when
the contained handle is valid — exhibited here on a concrete valid handle,
where the intended check `toBoolSpec` returns `true`. -/
theorem genericPointerBool_code_bug :
    (∀ (t : Nat) (p : ObjectPointer),
        (GenericObjectPointer.construct t p).toBoolCode = false)
    ∧ demoPtr.toBool = true
    ∧ (GenericObjectPointer.construct 0 demoPtr).toBoolCode = false
    ∧ (GenericObjectPointer.construct 0 demoPtr).toBoolSpec = true := by
  refine ⟨fun t p => rfl, by decide, by decide, by decide⟩

/-- Claim C2: for every valid typed handle `p` wrapped at its type's tag,
casting the generic pointer back to the same tag succeeds and returns a
handle equal (in the sense of `ObjectPointer::operator==`) to `p`. -/
theorem generic_roundtrip (t : Nat) (p : ObjectPointer)
    (h : p.toBool = true) :
    (match (GenericObjectPointer.construct t p).cast t with
     | Except.ok q => q.eqOp p
     | Except.error _ => false) = true := by
  simp [GenericObjectPointer.construct, GenericObjectPointer.cast,
    ObjectPointer.eqOp]

/-- Witness for C2 at a concrete valid handle. -/
theorem generic_roundtrip_witness :
    demoPtr.toBool = true ∧
    (match (GenericObjectPointer.construct 3 demoPtr).cast 3 with
     | Except.ok q => q.eqOp demoPtr
     | Except.error _ => false) = true :=
  ⟨by decide, generic_roundtrip 3 demoPtr (by decide)⟩

/-- Claim C3: casting a generic pointer wrapping a handle of type tag `t` to
a different registered type tag `u` fails with the TypeMismatch error (a
structured, catchable exception, not a crash) and leaves the generic
pointer unchanged. -/
theorem generic_cast_mismatch (t u : Nat) (p : ObjectPointer)
    (h : t ≠ u) :
    ((GenericObjectPointer.construct t p).castStateful u).1
        = Except.error CastError.typeMismatch
    ∧ ((GenericObjectPointer.construct t p).castStateful u).2
        = GenericObjectPointer.construct t p := by
  refine ⟨?_, rfl⟩
  simp [GenericObjectPointer.construct, GenericObjectPointer.castStateful,
    GenericObjectPointer.cast, h]

/-- Witness for C3 at concrete distinct tags. -/
theorem generic_cast_mismatch_witness :
    (0 : Nat) ≠ 1 ∧
    (((GenericObjectPointer.construct 0 demoPtr).castStateful 1).1
        = Except.error CastError.typeMismatch
      ∧ ((GenericObjectPointer.construct 0 demoPtr).castStateful 1).2
        = GenericObjectPointer.construct 0 demoPtr) :=
  ⟨by decide, generic_cast_mismatch 0 1 demoPtr (by decide)⟩

/-- Claim C10: `ObjectPointer::operator==` compares only the stored
iterators; the recorded owning-storage pointer plays no part, so handles
with the same iterator but different `cont` fields compare equal. -/
theorem object_pointer_eq_ignores_storage :
    (∀ p q : ObjectPointer, p.eqOp q = true ↔ p.it = q.it)
    ∧ (∀ (i : Iter) (c₁ c₂ : Option Nat),
        ObjectPointer.eqOp ⟨i, c₁⟩ ⟨i, c₂⟩ = true) := by
  constructor
  · intro p q
    simp [ObjectPointer.eqOp]
  · intro i c₁ c₂
    simp [ObjectPointer.eqOp]

/-- Witness for C10: two handles sharing an iterator but recording different
owning storages compare equal. -/
theorem object_pointer_eq_ignores_storage_witness :
    ObjectPointer.eqOp ⟨Iter.node 5, some 1⟩ ⟨Iter.node 5, some 2⟩ = true :=
  object_pointer_eq_ignores_storage.2 (Iter.node 5) (some 1) (some 2)

namespace metaprogramming

theorem index_of_mem {α : Type} [DecidableEq α] {t : α} :
    ∀ (ts : List α) (b : Nat), t ∈ ts →
      ∃ k, index_of b ts t = some (b + k) ∧ type_of ts k = some t := by
  intro ts
  induction ts with
  | nil => intro b h; cases h
  | cons hd rest ih =>
    intro b h
    by_cases htd : t = hd
    · exact ⟨0, by simp [index_of, htd], by simp [type_of, htd]⟩
    · have hmem : t ∈ rest := by
        rcases List.mem_cons.mp h with h1 | h1
        · exact absurd h1 htd
        · exact h1
      obtain ⟨k, hk1, hk2⟩ := ih (b + 1) hmem
      refine ⟨k + 1, ?_, ?_⟩
      · simp [index_of, htd]
        rw [hk1]
        congr 1
        omega
      · simpa [type_of] using hk2

theorem type_of_mem {α : Type} {t : α} :
    ∀ (ts : List α) (i : Nat), type_of ts i = some t → t ∈ ts := by
  intro ts
  induction ts with
  | nil => intro i h; simp [type_of] at h
  | cons hd rest ih =>
    intro i h
    cases i with
    | zero =>
      simp [type_of] at h
      simp [h]
    | succ i =>
      simp [type_of] at h
      exact List.mem_cons_of_mem hd (ih i h)

theorem index_of_type_of {α : Type} [DecidableEq α] {t : α} :
    ∀ (ts : List α) (i : Nat) (b : Nat), ts.Nodup →
      type_of ts i = some t → index_of b ts t = some (b + i) := by
  intro ts
  induction ts with
  | nil => intro i b _ h; simp [type_of] at h
  | cons hd rest ih =>
    intro i b hnd h
    cases i with
    | zero =>
      simp [type_of] at h
      simp [index_of, h]
    | succ i =>
      simp [type_of] at h
      have hmem : t ∈ rest := type_of_mem rest i h
      have hne : t ≠ hd := by
        intro he
        exact (List.nodup_cons.mp hnd).1 (he ▸ hmem)
      have := ih i (b + 1) (List.nodup_cons.mp hnd).2 h
      simp [index_of, hne]
      rw [this]
      congr 1
      omega

/-- Claim C7: for a registry over pairwise-distinct types, type-to-index is
a bijection onto the dense range: every registered type is found at some
index (its first occurrence), `type_of` at that index gives the type back,
and conversely `index_of` of the type found at any in-range index `i`
returns `i` itself. -/
theorem type_table_bijection {α : Type} [DecidableEq α] (ts : List α)
    (hnd : ts.Nodup) :
    (∀ t ∈ ts, ∃ i, index_of 0 ts t = some i ∧ type_of ts i = some t)
    ∧ (∀ (i : Nat) (t : α), type_of ts i = some t →
        index_of 0 ts t = some i) := by
  constructor
  · intro t ht
    obtain ⟨k, hk1, hk2⟩ := index_of_mem ts 0 ht
    exact ⟨k, by simpa using hk1, hk2⟩
  · intro i t h
    simpa using index_of_type_of ts i 0 hnd h

/-- Witness for C7 on the concrete registry with three distinct types. -/
theorem type_table_bijection_witness :
    ([10, 20, 30] : List Nat).Nodup ∧
    (∃ i, index_of 0 [10, 20, 30] 20 = some i
       ∧ type_of [10, 20, 30] i = some 20) ∧
    index_of 0 [10, 20, 30] 30 = some 2 :=
  ⟨by decide,
   (type_table_bijection [10, 20, 30] (by decide)).1 20 (by decide),
   (type_table_bijection [10, 20, 30] (by decide)).2 2 30 (by decide)⟩

end metaprogramming

theorem type_of_sub_index_of {α : Type} [DecidableEq α] {t : α} :
    ∀ (ts : List α) (b j : Nat), metaprogramming.index_of b ts t = some j →
      b ≤ j ∧ metaprogramming.type_of ts (j - b) = some t := by
  intro ts
  induction ts with
  | nil => intro b j h; simp [metaprogramming.index_of] at h
  | cons hd rest ih =>
    intro b j h
    by_cases htd : t = hd
    · simp [metaprogramming.index_of, htd] at h
      subst h
      simp [metaprogramming.type_of, htd]
    · simp [metaprogramming.index_of, htd] at h
      obtain ⟨hb, hty⟩ := ih (b + 1) j h
      refine ⟨by omega, ?_⟩
      have hjb : j - b = (j - (b + 1)) + 1 := by omega
      rw [hjb]
      simpa [metaprogramming.type_of] using hty

theorem index_of_injective {α : Type} [DecidableEq α] {a b : α}
    {ts : List α} {ia ib : Nat}
    (ha : metaprogramming.index_of 0 ts a = some ia)
    (hb : metaprogramming.index_of 0 ts b = some ib)
    (hab : a ≠ b) : ia ≠ ib := by
  intro he
  obtain ⟨-, hta⟩ := type_of_sub_index_of ts 0 ia ha
  obtain ⟨-, htb⟩ := type_of_sub_index_of ts 0 ib hb
  rw [he] at hta
  rw [hta] at htb
  exact hab (Option.some.inj htb)

/-- Claim C8: for distinct registered types `a` and `b` (whose sub-storage
indices are `ia` and `ib`), emplacing into or erasing from the sub-storage
of `a` leaves the sub-storage of `b` untouched: the whole sub-storage — and
hence its size, its contents and its iteration order — is unchanged. -/
theorem hetero_isolation {α : Type} [DecidableEq α] (τ : Nat → Type)
    (ts : List α) (a b : α) (ia ib : Nat)
    (ha : metaprogramming.index_of 0 ts a = some ia)
    (hb : metaprogramming.index_of 0 ts b = some ib)
    (hab : a ≠ b)
    (s : HeterogeneousStorage τ) (v : τ ia) (p : ObjectPointer)
    (sid : Nat) :
    (s.emplace ia v sid).1.containers ib = s.containers ib
    ∧ (s.erase ia p sid).1.containers ib = s.containers ib
    ∧ ((s.emplace ia v sid).1.containers ib).size = (s.containers ib).size
    ∧ ((s.emplace ia v sid).1.containers ib).values
        = (s.containers ib).values := by
  have hne : ib ≠ ia := (index_of_injective ha hb hab).symm
  have h1 : (s.emplace ia v sid).1.containers ib = s.containers ib := by
    simp [HeterogeneousStorage.emplace, Function.update_noteq hne]
  have h2 : (s.erase ia p sid).1.containers ib = s.containers ib := by
    simp [HeterogeneousStorage.erase, Function.update_noteq hne]
  exact ⟨h1, h2, by rw [h1], by rw [h1]⟩

/-- Witness for C8 on a concrete registry of two distinct types and a
concrete heterogeneous storage. -/
theorem hetero_isolation_witness :
    metaprogramming.index_of 0 [10, 20] 10 = some 0
    ∧ metaprogramming.index_of 0 [10, 20] 20 = some 1
    ∧ (10 : Nat) ≠ 20
    ∧ ((demoH.emplace 0 (5 : Nat) 1).1.containers 1 = demoH.containers 1
        ∧ (demoH.erase 0 demoPtr 1).1.containers 1 = demoH.containers 1
        ∧ ((demoH.emplace 0 (5 : Nat) 1).1.containers 1).size
            = (demoH.containers 1).size
        ∧ ((demoH.emplace 0 (5 : Nat) 1).1.containers 1).values
            = (demoH.containers 1).values) :=
  ⟨by decide, by decide, by decide,
   hetero_isolation demoTau [10, 20] 10 20 0 1 (by decide) (by decide)
     (by decide) demoH 5 demoPtr 1⟩

/-- Claim C4: the claim says `erase(GenericHandle)` resolves the active tag
and delegates to the typed erase.  The code is wrong: the body `erase(ptr)`
passes the parameter as an lvalue, for which the typed overload is never
viable (its `ObjT` is in a non-deduced context), so the call can only
re-enter the same overload and no typed `Storage::erase` is ever reached —
for every fuel bound the modelled code produces no resulting state, while
the delegation described by the claim (modelled by `eraseGenericSpec`)
does produce one. -/
theorem erase_generic_never_delegates :
    (∀ (τ : Nat → Type) (fuel : Nat) (s : HeterogeneousStorage τ)
        (g : GenericObjectPointer),
        HeterogeneousStorage.eraseGenericCode fuel s g = none)
    ∧ (HeterogeneousStorage.eraseGenericSpec demoH demoG 1).isSome
        = true := by
  constructor
  · intro τ fuel s g
    induction fuel with
    | zero => rfl
    | succ f ih => simpa [HeterogeneousStorage.eraseGenericCode] using ih
  · rfl

/-- Claim C9: the claim says each member of the TypedView begin/end family
returns exactly what the heterogeneous storage's corresponding per-type
accessor returns, in particular that the view's `crend()` returns
`H.crend<T>()`.  Seven of the eight members do delegate to their namesake;
`crend` is wrong in the code: it returns `storage.rend<ObjT>()`, whose
result is a mutable `reverse_iterator`, not the `const_reverse_iterator`
that `H.crend<T>()` returns — exhibited concretely on `demoH`. -/
theorem typed_view_delegation :
    (∀ (τ : Nat → Type) (s : HeterogeneousStorage τ) (i : Nat),
        TypedView.beginIt s i = s.beginIt i
        ∧ TypedView.endIt s i = s.endIt i
        ∧ TypedView.cbeginIt s i = s.cbeginIt i
        ∧ TypedView.cendIt s i = s.cendIt i
        ∧ TypedView.rbeginIt s i = s.rbeginIt i
        ∧ TypedView.rendIt s i = s.rendIt i
        ∧ TypedView.crbeginIt s i = s.crbeginIt i
        ∧ TypedView.crendIt s i = s.rendIt i
        ∧ (TypedView.crendIt s i).ty = CxxIterType.mutRevIter
        ∧ (s.crendIt i).ty = CxxIterType.constRevIter)
    ∧ decide (TypedView.crendIt demoH 0 = demoH.crendIt 0) = false := by
  constructor
  · intro τ s i
    exact ⟨rfl, rfl, rfl, rfl, rfl, rfl, rfl, rfl, rfl, rfl⟩
  · decide

theorem emplace_length {T : Type} (sid : Nat) (s : Storage T) (v : T) :
    ((Storage.emplace sid s v).1).objects.length
      = s.objects.length + 1 := by
  simp [Storage.emplace]

theorem erase_length {T : Type} (sid : Nat) (s : Storage T) (id : Nat)
    (h : id ∈ s.liveIds) :
    ((Storage.erase sid s ⟨Iter.node id, some sid⟩).1).objects.length + 1
      = s.objects.length := by
  obtain ⟨q, hq, hq1⟩ := List.mem_map.mp h
  simp only [Storage.erase]
  exact List.length_eraseP_add_one hq (by simp [hq1])

theorem runOps_length {T : Type} (sid : Nat) :
    ∀ (ops : List (StorageOp T)) (s : Storage T),
      validOps sid s ops = true →
      (runOps sid s ops).objects.length + countErases ops
        = s.objects.length + countEmplaces ops := by
  intro ops
  induction ops with
  | nil =>
    intro s _
    simp [runOps, countErases, countEmplaces]
  | cons op ops ih =>
    intro s h
    cases op with
    | emplace v =>
      have h1 := ih (Storage.emplace sid s v).1 (by simpa [validOps] using h)
      have h2 := emplace_length sid s v
      simp only [runOps, countErases, countEmplaces]
      omega
    | erase id =>
      simp only [validOps, Bool.and_eq_true] at h
      have hmem : id ∈ s.liveIds := by
        simpa using h.1
      have h1 := ih (Storage.erase sid s ⟨Iter.node id, some sid⟩).1 h.2
      have h2 := erase_length sid s id hmem
      simp only [runOps, countErases, countEmplaces]
      omega

/-- Claim C5: sizes under emplace/erase sequences — each emplace grows the
size by one; each erase through a live handle shrinks it by one; and after
any valid sequence of operations on an initially empty storage the size
plus the number of erases performed equals the number of emplaces
performed (i.e. size = emplaces − erases). -/
theorem storage_size_law {T : Type} (sid : Nat) :
    (∀ (s : Storage T) (v : T),
        ((Storage.emplace sid s v).1).size = s.size + 1)
    ∧ (∀ (s : Storage T) (id : Nat), id ∈ s.liveIds →
        ((Storage.erase sid s ⟨Iter.node id, some sid⟩).1).size + 1
          = s.size)
    ∧ (∀ ops : List (StorageOp T),
        validOps sid (⟨0, []⟩ : Storage T) ops = true →
        (runOps sid (⟨0, []⟩ : Storage T) ops).size + countErases ops
          = countEmplaces ops) := by
  refine ⟨fun s v => emplace_length sid s v,
          fun s id h => erase_length sid s id h, fun ops hv => ?_⟩
  have := runOps_length sid ops ⟨0, []⟩ hv
  simpa [Storage.size] using this

/-- Witness for C5 on the concrete scenario sequence. -/
theorem storage_size_law_witness :
    validOps 1 (⟨0, []⟩ : Storage Nat) demoOps = true
    ∧ (runOps 1 (⟨0, []⟩ : Storage Nat) demoOps).size + countErases demoOps
        = countEmplaces demoOps
    ∧ (0 : Nat) ∈ (⟨2, [(0, 7), (1, 8)]⟩ : Storage Nat).liveIds
    ∧ ((Storage.erase 1 (⟨2, [(0, 7), (1, 8)]⟩ : Storage Nat)
          ⟨Iter.node 0, some 1⟩).1).size + 1
        = (⟨2, [(0, 7), (1, 8)]⟩ : Storage Nat).size :=
  ⟨by decide, (storage_size_law 1).2.2 demoOps (by decide),
   by decide,
   (storage_size_law 1).2.1 ⟨2, [(0, 7), (1, 8)]⟩ 0 (by decide)⟩

theorem eraseP_node_eq {T : Type} (l : List (Nat × T)) (id : Nat) :
    l.eraseP (fun q => decide (Iter.node q.1 = Iter.node id))
      = l.eraseP (fun q => q.1 == id) := by
  congr 1
  funext q
  by_cases h : q.1 = id
  · simp [h]
  · simp [h]

theorem eraseP_eq_filter_of_nodup {T : Type} :
    ∀ (l : List (Nat × T)) (id : Nat), (l.map Prod.fst).Nodup →
      l.eraseP (fun q => q.1 == id)
        = l.filter (fun q => !(q.1 == id)) := by
  intro l
  induction l with
  | nil => intro id _; rfl
  | cons q l ih =>
    intro id hnd
    simp only [List.map_cons, List.nodup_cons] at hnd
    by_cases hq : q.1 = id
    · rw [List.eraseP_cons_of_pos (by simp [hq]),
        List.filter_cons_of_neg (by simp [hq])]
      refine (List.filter_eq_self.mpr ?_).symm
      intro a ha
      have hne : a.1 ≠ q.1 := by
        intro he
        exact hnd.1 (he ▸ List.mem_map_of_mem Prod.fst ha)
      simp
      omega
    · rw [List.eraseP_cons_of_neg (by simp [hq]),
        List.filter_cons_of_pos (by simp [hq]), ih id hnd.2]

theorem emplacedLog_ge {T : Type} :
    ∀ (ops : List (StorageOp T)) (b : Nat) (q : Nat × T),
      q ∈ emplacedLog b ops → b ≤ q.1 := by
  intro ops
  induction ops with
  | nil => intro b q h; simp [emplacedLog] at h
  | cons op ops ih =>
    intro b q h
    cases op with
    | emplace v =>
      simp only [emplacedLog, List.mem_cons] at h
      rcases h with h | h
      · simp [h]
      · have := ih (b + 1) q h
        omega
    | erase id =>
      exact ih b q (by simpa [emplacedLog] using h)

theorem runOps_objects {T : Type} (sid : Nat) :
    ∀ (ops : List (StorageOp T)) (s : Storage T),
      (∀ q ∈ s.objects, q.1 < s.nextId) → s.liveIds.Nodup →
      validOps sid s ops = true →
      (runOps sid s ops).objects
        = (s.objects ++ emplacedLog s.nextId ops).filter
            (fun q => !((erasedIds ops).contains q.1)) := by
  intro ops
  induction ops with
  | nil =>
    intro s _ _ _
    simp [runOps, emplacedLog, erasedIds]
  | cons op ops ih =>
    intro s hlt hnd hv
    cases op with
    | emplace v =>
      have hlt' : ∀ q ∈ (Storage.emplace sid s v).1.objects,
          q.1 < (Storage.emplace sid s v).1.nextId := by
        intro q hq
        simp only [Storage.emplace, List.mem_append,
          List.mem_singleton] at hq
        rcases hq with hq | hq
        · have := hlt q hq
          simp only [Storage.emplace]
          omega
        · simp [Storage.emplace, hq]
      have hnd' : (Storage.emplace sid s v).1.liveIds.Nodup := by
        simp only [Storage.emplace, Storage.liveIds, List.map_append,
          List.map_cons, List.map_nil]
        refine List.Nodup.append hnd (List.nodup_singleton _) ?_
        intro a ha hb
        simp only [List.mem_singleton] at hb
        obtain ⟨q, hq, hq1⟩ := List.mem_map.mp ha
        have := hlt q hq
        omega
      have hv' : validOps sid (Storage.emplace sid s v).1 ops = true := by
        simpa [validOps] using hv
      have h1 := ih (Storage.emplace sid s v).1 hlt' hnd' hv'
      simp only [runOps]
      rw [h1]
      simp [Storage.emplace, emplacedLog, erasedIds, List.append_assoc]
    | erase id =>
      simp only [validOps, Bool.and_eq_true] at hv
      have hmem : id ∈ s.liveIds := by simpa using hv.1
      have hidlt : id < s.nextId := by
        obtain ⟨q, hq, hq1⟩ := List.mem_map.mp hmem
        have := hlt q hq
        omega
      have hsub :
          (Storage.erase sid s ⟨Iter.node id, some sid⟩).1.objects.Sublist
            s.objects := List.eraseP_sublist _
      have hlt' : ∀ q ∈ (Storage.erase sid s ⟨Iter.node id,
          some sid⟩).1.objects, q.1 < s.nextId :=
        fun q hq => hlt q (hsub.subset hq)
      have hnd' :
          (Storage.erase sid s ⟨Iter.node id, some sid⟩).1.liveIds.Nodup :=
        hnd.sublist (hsub.map Prod.fst)
      have h1 := ih _ hlt' hnd' hv.2
      simp only [runOps]
      rw [h1]
      have he : (Storage.erase sid s ⟨Iter.node id, some sid⟩).1.objects
          = s.objects.filter (fun q => !(q.1 == id)) := by
        simp only [Storage.erase]
        rw [eraseP_node_eq, eraseP_eq_filter_of_nodup _ _ hnd]
      have hlog : (emplacedLog s.nextId ops).filter (fun q => !(q.1 == id))
          = emplacedLog s.nextId ops := by
        apply List.filter_eq_self.mpr
        intro q hq
        have := emplacedLog_ge ops s.nextId q hq
        simp
        omega
      rw [he]
      calc (s.objects.filter (fun q => !(q.1 == id))
              ++ emplacedLog s.nextId ops).filter
            (fun q => !((erasedIds ops).contains q.1))
          = (s.objects.filter (fun q => !(q.1 == id))
              ++ (emplacedLog s.nextId ops).filter
                  (fun q => !(q.1 == id))).filter
              (fun q => !((erasedIds ops).contains q.1)) := by rw [hlog]
        _ = (((s.objects ++ emplacedLog s.nextId ops).filter
                (fun q => !(q.1 == id)))).filter
              (fun q => !((erasedIds ops).contains q.1)) := by
              rw [← List.filter_append]
        _ = (s.objects ++ emplacedLog s.nextId ops).filter
              (fun q => !((erasedIds ops).contains q.1) && !(q.1 == id)) := by
              rw [List.filter_filter]
        _ = (s.objects ++ emplacedLog s.nextId ops).filter
              (fun q => !((erasedIds (StorageOp.erase id :: ops)).contains
                q.1)) := by
              apply List.filter_congr
              intro a _
              simp [erasedIds, List.contains_cons, Bool.and_comm,
                Bool.beq_eq_decide_eq]

/-- Claim C6: after any valid sequence of emplace/erase operations on an
initially empty storage, forward iteration (the list of live nodes in list
order) yields exactly the still-live objects in the order their emplace
calls occurred: the emplace log in call order with every erased node
filtered out. -/
theorem storage_iteration_order {T : Type} (sid : Nat)
    (ops : List (StorageOp T))
    (hv : validOps sid (⟨0, []⟩ : Storage T) ops = true) :
    (runOps sid (⟨0, []⟩ : Storage T) ops).objects
      = (emplacedLog 0 ops).filter
          (fun q => !((erasedIds ops).contains q.1)) := by
  have h := runOps_objects sid ops ⟨0, []⟩ (by intro q hq; cases hq)
    (by simp [Storage.liveIds]) hv
  simpa using h

/-- Witness for C6 on the concrete scenario: emplace 1, 2, 3, erase the
handle for 2 — iteration yields 1 then 3 and the size is 2. -/
theorem storage_iteration_order_witness :
    validOps 1 (⟨0, []⟩ : Storage Nat) demoOps = true
    ∧ (runOps 1 (⟨0, []⟩ : Storage Nat) demoOps).objects
        = (emplacedLog 0 demoOps).filter
            (fun q => !((erasedIds demoOps).contains q.1))
    ∧ (runOps 1 (⟨0, []⟩ : Storage Nat) demoOps).values = [1, 3]
    ∧ (runOps 1 (⟨0, []⟩ : Storage Nat) demoOps).size = 2 :=
  ⟨by decide, storage_iteration_order 1 demoOps (by decide),
   by decide, by decide⟩

end Core
